import Mathlib

/-!
# Verification of the `leaky_diode` covert-channel toolkit

Shallow embedding of the core of the `leaky_diode` repository
(`message.py`, `buffer.py`, `server.py`, `client.py`) and proofs of the
specification's testable properties.

Bytes are modelled as `List Nat` (each entry intended `< 256`); Python
exceptions become an explicit error type; wall-clock times and rates are
modelled as exact rationals.
-/

/-- Python exceptions that the modelled code can raise:
`ValueError`, `ValidationError` (subclass of `Exception` in `message.py`),
`IndexError` (from `StreamBuffer`), `Exit` (from `server.py`),
`ConnectionError` (from `client.py`). -/
inductive PyError where
  | valueError : PyError
  | validationError : PyError
  | indexError : PyError
  | exitSignal : PyError
  | connectionError : String → PyError
deriving DecidableEq, Repr

/-! ## Big-endian packing (Python `struct`, format `!`) -/

/-- Big-endian packing of a 32-bit unsigned integer (`struct` format `L`).
`struct.pack` raises for out-of-range values; packers below guard the range. -/
def pack32 (n : Nat) : List Nat :=
  [n / 16777216 % 256, n / 65536 % 256, n / 256 % 256, n % 256]

/-- Big-endian packing of a 16-bit unsigned integer (`struct` format `H`). -/
def pack16 (n : Nat) : List Nat :=
  [n / 256 % 256, n % 256]

/-- Big-endian decoding of 4 bytes into an unsigned integer. -/
def unpack32 (a b c d : Nat) : Nat :=
  a * 16777216 + b * 65536 + c * 256 + d

/-- Big-endian decoding of 2 bytes into an unsigned integer. -/
def unpack16 (a b : Nat) : Nat :=
  a * 256 + b

theorem unpack32_pack32 (n : Nat) (h : n < 4294967296) :
    unpack32 (n / 16777216 % 256) (n / 65536 % 256) (n / 256 % 256) (n % 256) = n := by
  unfold unpack32
  omega

theorem unpack16_pack16 (n : Nat) (h : n < 65536) :
    unpack16 (n / 256 % 256) (n % 256) = n := by
  unfold unpack16
  omega

/-! ## Message protocol (`message.py`) -/

/-- The five wire-message variants (`LeakyMessageType` tags 0..4), with the
typed payload each carries (`LeakyModeMessage`, `LeakyExitMessage`,
`LeakySecretMessage`, `LeakyNopMessage`, `LeakySecretLengthMessage`). -/
inductive LeakyMessage where
  | mode (attackMode low high : Nat)
  | exit
  | secret (secretByte secretBit : Nat)
  | nop (data : List Nat)
  | secretLength (lengthBit : Nat)
deriving DecidableEq, Repr

/-- `struct.calcsize` of each variant's `PACKER` format (`SIZE` class field). -/
def LeakyMessage.size : LeakyMessage → Nat
  | .mode _ _ _ => 14        -- !LBBLL
  | .exit => 5               -- !LB
  | .secret _ _ => 8         -- !LBHB
  | .nop _ => 512            -- !LB507s
  | .secretLength _ => 6     -- !LBB

/-- Each variant's `TYPE` tag (`LeakyMessageType`). -/
def LeakyMessage.tag : LeakyMessage → Nat
  | .mode _ _ _ => 0
  | .exit => 1
  | .secret _ _ => 2
  | .nop _ => 3
  | .secretLength _ => 4

/-- `struct.pack("507s", data)`: truncate to 507 bytes, pad with zero bytes. -/
def pad507 (data : List Nat) : List Nat :=
  data.take 507 ++ List.replicate (507 - data.length) 0

/-- `BaseLeakyMessage.to_bytes`: pack `(SIZE, TYPE) + self.args` with the
variant's `PACKER`.  `none` models `struct.error` on a field that does not
fit its format width. -/
def LeakyMessage.to_bytes : LeakyMessage → Option (List Nat)
  | .mode m low high =>
      if m < 256 ∧ low < 4294967296 ∧ high < 4294967296 then
        some (pack32 14 ++ [0, m] ++ pack32 low ++ pack32 high)
      else none
  | .exit => some (pack32 5 ++ [1])
  | .secret byt bit =>
      if byt < 65536 ∧ bit < 256 then
        some (pack32 8 ++ [2] ++ pack16 byt ++ [bit])
      else none
  | .nop data => some (pack32 512 ++ [3] ++ pad507 data)
  | .secretLength bit =>
      if bit < 256 then some (pack32 6 ++ [4, bit]) else none

/-- `LeakyModeMessage.from_bytes`: unpack `!LBBLL` (exact length 14, else
`struct.error` re-raised as `ValueError`), check the type tag, then the
constructor's `validate` (`mode ∈ LeakyAttackMode`, `low < high`). The
unpacked length field is ignored. -/
def LeakyModeMessage.from_bytes (buf : List Nat) : Except PyError LeakyMessage :=
  if buf.length = 14 then
    if buf.getD 4 0 ≠ 0 then .error .valueError
    else
      let m := buf.getD 5 0
      let low := unpack32 (buf.getD 6 0) (buf.getD 7 0) (buf.getD 8 0) (buf.getD 9 0)
      let high := unpack32 (buf.getD 10 0) (buf.getD 11 0) (buf.getD 12 0) (buf.getD 13 0)
      if m ≠ 0 ∧ m ≠ 1 then .error .validationError
      else if low ≥ high then .error .validationError
      else .ok (.mode m low high)
  else .error .valueError

/-- `LeakyExitMessage.from_bytes`: unpack `!LB` (exact length 5), check the
type tag; the base-class `validate` accepts everything. -/
def LeakyExitMessage.from_bytes (buf : List Nat) : Except PyError LeakyMessage :=
  if buf.length = 5 then
    if buf.getD 4 0 ≠ 1 then .error .valueError
    else .ok .exit
  else .error .valueError

/-- `LeakySecretMessage.from_bytes`: unpack `!LBHB` (exact length 8), check
the type tag, then `validate` (`0 ≤ secret_bit < 8`). -/
def LeakySecretMessage.from_bytes (buf : List Nat) : Except PyError LeakyMessage :=
  if buf.length = 8 then
    if buf.getD 4 0 ≠ 2 then .error .valueError
    else
      let byt := unpack16 (buf.getD 5 0) (buf.getD 6 0)
      let bit := buf.getD 7 0
      if ¬ bit < 8 then .error .validationError
      else .ok (.secret byt bit)
  else .error .valueError

/-- `LeakyNopMessage.from_bytes`: unpack `!LB507s` (exact length 512), check
the type tag, then `validate` (`len(data) == 507`, always true here). -/
def LeakyNopMessage.from_bytes (buf : List Nat) : Except PyError LeakyMessage :=
  if buf.length = 512 then
    if buf.getD 4 0 ≠ 3 then .error .valueError
    else
      let data := buf.drop 5
      if data.length ≠ 507 then .error .validationError
      else .ok (.nop data)
  else .error .valueError

/-- `LeakySecretLengthMessage.from_bytes`: unpack `!LBB` (exact length 6),
check the type tag, then `validate` (`0 ≤ length_bit < 16`). -/
def LeakySecretLengthMessage.from_bytes (buf : List Nat) : Except PyError LeakyMessage :=
  if buf.length = 6 then
    if buf.getD 4 0 ≠ 4 then .error .valueError
    else
      let bit := buf.getD 5 0
      if ¬ bit < 16 then .error .validationError
      else .ok (.secretLength bit)
  else .error .valueError

/-- The type-tag dispatch of `LeakyMessageParser.parse` (the `elif` chain):
an unrecognized tag raises `ValueError`. -/
def decodeFrame (typ : Nat) (buf : List Nat) : Except PyError LeakyMessage :=
  if typ = 0 then LeakyModeMessage.from_bytes buf
  else if typ = 1 then LeakyExitMessage.from_bytes buf
  else if typ = 2 then LeakySecretMessage.from_bytes buf
  else if typ = 3 then LeakyNopMessage.from_bytes buf
  else if typ = 4 then LeakySecretLengthMessage.from_bytes buf
  else .error .valueError

/-- Decoding a standalone frame: dispatch on its type byte (offset 4). -/
def decodeMessage (buf : List Nat) : Except PyError LeakyMessage :=
  decodeFrame (buf.getD 4 0) buf

/-! ## Stream buffer (`buffer.py`) -/

/-- `StreamBuffer`: a deque of byte chunks plus the cached total size and the
fixed capacity (`__slots__ = ('_buffer', '_max_size', '_size')`). -/
structure StreamBuffer where
  chunks : List (List Nat)
  max_size : Nat
  size : Nat
deriving DecidableEq, Repr

/-- `StreamBuffer.__init__(max_size)`. -/
def StreamBuffer.empty (max_size : Nat) : StreamBuffer :=
  ⟨[], max_size, 0⟩

/-- `StreamBuffer.append`: store as much of `data` as fits, return the
unstored remainder (`none` when everything fit). -/
def StreamBuffer.append (sb : StreamBuffer) (data : List Nat) :
    StreamBuffer × Option (List Nat) :=
  let free_buffer := sb.max_size - sb.size
  if free_buffer = 0 then (sb, some data)
  else if data.length ≤ free_buffer then
    ({ sb with chunks := sb.chunks ++ [data], size := sb.size + data.length }, none)
  else
    ({ sb with chunks := sb.chunks ++ [data.take free_buffer],
               size := sb.size + free_buffer },
     some (data.drop free_buffer))

/-- The chunk-walking loop of `StreamBuffer.peek`. -/
def peekAux : List (List Nat) → Nat → List Nat
  | [], _ => []
  | buf :: rest, missing =>
      if missing ≤ buf.length then buf.take missing
      else buf ++ peekAux rest (missing - buf.length)

/-- `StreamBuffer.peek`: first `length` bytes without removal;
`IndexError` when fewer are stored. -/
def StreamBuffer.peek (sb : StreamBuffer) (length : Nat) : Except PyError (List Nat) :=
  if length > sb.size then .error .indexError
  else .ok (peekAux sb.chunks length)

/-- The `while missing > 0` loop of `StreamBuffer.pop`: returns the joined
popped fragments and the remaining chunks (a chunk may be split). -/
def popAux : List (List Nat) → Nat → List Nat × List (List Nat)
  | bufs, 0 => ([], bufs)
  | [], _ + 1 => ([], [])
  | buf :: rest, missing + 1 =>
      if buf.length > missing + 1 then
        (buf.take (missing + 1), buf.drop (missing + 1) :: rest)
      else
        let r := popAux rest (missing + 1 - buf.length)
        (buf ++ r.1, r.2)

/-- `StreamBuffer.pop`: first `length` bytes, removed; `IndexError` when
fewer are stored. -/
def StreamBuffer.pop (sb : StreamBuffer) (length : Nat) :
    Except PyError (List Nat × StreamBuffer) :=
  if length > sb.size then .error .indexError
  else
    let r := popAux sb.chunks length
    .ok (r.1, { sb with chunks := r.2, size := sb.size - length })

/-- `len(StreamBuffer)`. -/
def StreamBuffer.len (sb : StreamBuffer) : Nat := sb.size

/-- The cached `_size` field agrees with the bytes actually stored (holds
for every buffer the class's own operations construct). -/
def StreamBuffer.WF (sb : StreamBuffer) : Prop :=
  sb.size = sb.chunks.flatten.length

instance (sb : StreamBuffer) : Decidable sb.WF := by
  unfold StreamBuffer.WF; infer_instance

/-! ## Incremental parser (`LeakyMessageParser`) -/

/-- `struct.calcsize("!LB")`, the parser's `_header_size`. -/
def header_size : Nat := 5

/-- The parser's `_header_unpacker.unpack`: exactly 5 bytes give the declared
frame length and the type tag. -/
def headerUnpack (hdr : List Nat) : Except PyError (Nat × Nat) :=
  if hdr.length = 5 then
    .ok (unpack32 (hdr.getD 0 0) (hdr.getD 1 0) (hdr.getD 2 0) (hdr.getD 3 0),
         hdr.getD 4 0)
  else .error .valueError

/-- The `cls.from_bytes(self._buffer.pop(length))` call each `elif` branch
of `parse` performs: pop the frame, decode it, propagating either
exception. -/
def pop_decode (sb : StreamBuffer) (length : Nat)
    (fromBytes : List Nat → Except PyError LeakyMessage) :
    Except PyError (Option LeakyMessage × StreamBuffer) :=
  match sb.pop length with
  | .error e => .error e
  | .ok r =>
      match fromBytes r.1 with
      | .error e => .error e
      | .ok m => .ok (some m, r.2)

/-- `LeakyMessageParser.parse`: return the next complete request in the
buffer (`none` when fewer than 5 bytes, or fewer than the declared length,
are buffered), popping exactly the declared number of bytes otherwise and
dispatching on the type tag; an unrecognized tag raises `ValueError`. -/
def parse (sb : StreamBuffer) : Except PyError (Option LeakyMessage × StreamBuffer) :=
  let buffer_size := sb.len
  if buffer_size < header_size then .ok (none, sb)
  else
    match sb.peek header_size with
    | .error e => .error e
    | .ok hdr =>
      match headerUnpack hdr with
      | .error e => .error e
      | .ok (length, typ) =>
        if buffer_size < length then .ok (none, sb)
        else if typ = 0 then pop_decode sb length LeakyModeMessage.from_bytes
        else if typ = 1 then pop_decode sb length LeakyExitMessage.from_bytes
        else if typ = 2 then pop_decode sb length LeakySecretMessage.from_bytes
        else if typ = 3 then pop_decode sb length LeakyNopMessage.from_bytes
        else if typ = 4 then pop_decode sb length LeakySecretLengthMessage.from_bytes
        else .error .valueError

/-! ## Client bit reconstruction (`client.py`) -/

/-- The accumulation of `reduce(or_, (1 << i for i, bit in enumerate(bits) if bit), 0)`
with the running index `i` and accumulator made explicit. -/
def reconstruct_aux : List Bool → Nat → Nat → Nat
  | [], _, acc => acc
  | b :: rest, i, acc =>
      reconstruct_aux rest (i + 1) (if b then acc ||| (1 <<< i) else acc)

/-- `reconstruct_byte`: OR together `1 << i` for every index `i` whose sample
is true (LSB-first). -/
def reconstruct_byte (bits : List Bool) : Nat :=
  reconstruct_aux bits 0 0

/-! ## Server connection state machine (`server.py`) -/

/-- `BASE_LEAKY_RATE = 60*1024`. -/
def BASE_LEAKY_RATE : Nat := 61440

/-- `LeakyWorkerProcess.get_secret_bit`: `(self.secret[byt] & (0x01 << bit)) > 0`.
Callers check `byt < len(secret)` first (Python would raise `IndexError`
otherwise); out of range the default 0 is returned here. -/
def get_secret_bit (secret : List Nat) (byt bit : Nat) : Bool :=
  (secret.getD byt 0) &&& (1 <<< bit) > 0

/-- The secret-length bit computed inline by both mode handlers:
`(len(self.secret) & (1 << message.length_bit)) > 0`. -/
def get_length_bit (secret : List Nat) (bit : Nat) : Bool :=
  secret.length &&& (1 <<< bit) > 0

/-- The per-connection mutable state of `LeakyWorkerProcess`
(`_init_connection` plus the mode parameters).  Rates are exact rationals
(Python mixes ints and floats); `close_time` is an absolute monotonic
instant. -/
structure ConnState where
  secret : List Nat
  ticks : Nat
  mode : Option Nat          -- none | some 0 (FLOW_MODULATION) | some 1 (CLOSE_DELAY)
  low : Nat
  high : Nat
  rate : ℚ
  recv_size : ℤ
  close_time : Option ℚ
  exit : Bool
deriving DecidableEq, Repr

/-- `LeakyWorkerProcess.set_rate`: store the rate and recompute
`recv_size = rate // ticks` (floor division). -/
def set_rate (s : ConnState) (r : ℚ) : ConnState :=
  { s with rate := r, recv_size := ⌊r / (s.ticks : ℚ)⌋ }

/-- `LeakyWorkerProcess.handle_message_delay` (CLOSE_DELAY mode): arm the
close deadline at `now + high/1000` or `now + low/1000` seconds and pin the
rate to `BASE_LEAKY_RATE`; a Secret request out of the secret's range, or a
message type invalid for the mode, raises `ValueError`. -/
def handle_message_delay (s : ConnState) (now : ℚ) :
    LeakyMessage → Except PyError ConnState
  | .secret byt bit =>
      if byt ≥ s.secret.length then .error .valueError
      else
        let s1 := set_rate s (BASE_LEAKY_RATE : ℚ)
        if get_secret_bit s.secret byt bit then
          .ok { s1 with close_time := some (now + (s.high : ℚ) / 1000) }
        else
          .ok { s1 with close_time := some (now + (s.low : ℚ) / 1000) }
  | .secretLength bit =>
      let s1 := set_rate s (BASE_LEAKY_RATE : ℚ)
      if get_length_bit s.secret bit then
        .ok { s1 with close_time := some (now + (s.high : ℚ) / 1000) }
      else
        .ok { s1 with close_time := some (now + (s.low : ℚ) / 1000) }
  | _ => .error .valueError

/-- `LeakyWorkerProcess.handle_message_flow` (FLOW_MODULATION mode): set the
target rate to `high` when the requested bit is 1 and `low` when it is 0; a
Secret request out of the secret's range raises `ValueError`; an Exit
message raises `Exit`; any other message raises `ValueError`. -/
def handle_message_flow (s : ConnState) :
    LeakyMessage → Except PyError ConnState
  | .secret byt bit =>
      if byt ≥ s.secret.length then .error .valueError
      else if get_secret_bit s.secret byt bit then .ok (set_rate s (s.high : ℚ))
      else .ok (set_rate s (s.low : ℚ))
  | .secretLength bit =>
      if get_length_bit s.secret bit then .ok (set_rate s (s.high : ℚ))
      else .ok (set_rate s (s.low : ℚ))
  | .exit => .error .exitSignal
  | _ => .error .valueError

/-- `LeakyWorkerProcess.handle_message_no_mode`: a Mode message records
`low`/`high`, selects the mode and sets the baseline rate (midpoint for
flow modulation, `BASE_LEAKY_RATE` for close delay); anything else raises
`ValueError`. -/
def handle_message_no_mode (s : ConnState) :
    LeakyMessage → Except PyError ConnState
  | .mode m low high =>
      if m = 0 then
        .ok (set_rate { s with mode := some 0, high := high, low := low }
              ((low : ℚ) + ((high : ℚ) - (low : ℚ)) / 2))
      else if m = 1 then
        .ok (set_rate { s with mode := some 1, high := high, low := low }
              (BASE_LEAKY_RATE : ℚ))
      else .ok s
  | _ => .error .valueError

/-- Outcome of dispatching one parsed non-Nop, non-Exit message inside
`handle_connection`'s inner loop. -/
inductive DispatchResult where
  | continued (s : ConnState)      -- handler returned normally
  | closed                         -- `except ValueError: return` ends the connection
  | crashed (e : PyError)          -- any other exception propagates
deriving DecidableEq, Repr

/-- The mode dispatch of `handle_connection` (lines 232-241): route the
message to the active mode's handler; a `ValueError` ends the connection. -/
def dispatch_message (s : ConnState) (now : ℚ) (m : LeakyMessage) : DispatchResult :=
  let r := match s.mode with
    | some 0 => handle_message_flow s m
    | some _ => handle_message_delay s now m
    | none => handle_message_no_mode s m
  match r with
  | .ok s1 => .continued s1
  | .error .valueError => .closed
  | .error e => .crashed e

/-- The outcome of the socket read at the top of each tick of
`handle_connection`: `socket.timeout` or the received bytes. -/
inductive RecvResult where
  | timeout
  | data (bs : List Nat)
deriving DecidableEq, Repr

/-- What one tick of `handle_connection` decides before any message is
parsed (lines 199-211): a timed-out read `continue`s the loop; otherwise
the armed close deadline is checked against the current time, then
a zero-length read (client closed) ends the connection. -/
inductive TickOutcome where
  | proceed (bs : List Nat)        -- feed `bs` to the parser and keep going
  | skipped                        -- `continue` after socket.timeout
  | closedConn                     -- `break`: close the connection
deriving DecidableEq, Repr

/-- The close-deadline test of lines 205-207: armed and already due. -/
def deadline_reached (close_time : Option ℚ) (now : ℚ) : Bool :=
  match close_time with
  | some t => now ≥ t
  | none => false

/-- The head of one iteration of `handle_connection`'s `while` loop, after
the semaphore acquire: the recv, the close-deadline check and the EOF
check. -/
def tick_step (s : ConnState) (now : ℚ) : RecvResult → TickOutcome
  | .timeout => .skipped
  | .data bs =>
      if deadline_reached s.close_time now then .closedConn
      else if bs.length = 0 then .closedConn
      else .proceed bs

/-! ## Rate-controller semaphore (`threading.BoundedSemaphore`) -/

/-- The ticker semaphore: internal counter plus the bound fixed at
construction (`BoundedSemaphore` raises on a release beyond the initial
value). -/
structure TickerSem where
  value : Nat
  initial : Nat
deriving DecidableEq, Repr

/-- `threading.BoundedSemaphore(n)`: counter starts at `n`, bound `n`. -/
def TickerSem.create (n : Nat) : TickerSem := ⟨n, n⟩

/-- One `release` as performed by `ticker_thread`: increment, except that
the `ValueError` raised at the bound is caught and ignored. -/
def ticker_release (s : TickerSem) : TickerSem :=
  if s.initial ≤ s.value then s else { s with value := s.value + 1 }

/-- A non-blocking `acquire` as in `_empty_ticker_semaphore`: decrement if
positive, report whether a unit was taken. -/
def sem_try_acquire (s : TickerSem) : Bool × TickerSem :=
  if s.value = 0 then (false, s) else (true, { s with value := s.value - 1 })

/-- `_empty_ticker_semaphore`: acquire without blocking until empty. -/
def empty_ticker_semaphore (s : TickerSem) : TickerSem :=
  { s with value := 0 }

/-- States of the worker's `_ticker_sem` reachable from its construction
(`BoundedSemaphore(self.ticks)`) by any interleaving of ticker releases,
handler acquires and connection-start drains. -/
inductive SemReachable (ticks : Nat) : TickerSem → Prop
  | init : SemReachable ticks (TickerSem.create ticks)
  | release {s} : SemReachable ticks s → SemReachable ticks (ticker_release s)
  | acquire {s} : SemReachable ticks s → SemReachable ticks (sem_try_acquire s).2
  | drain {s} : SemReachable ticks s → SemReachable ticks (empty_ticker_semaphore s)

/-! ## Client orchestration (`LeakyClient`) -/

/-- The tagged events the extraction engines put on `result_q`
(`("length", n)`, `("secret", bytes)`, `("done", None)`,
`("error", msg)`, `("exit", msg)`). -/
inductive QEvent where
  | length (n : Nat)
  | secret (bs : List Nat)
  | done
  | error (msg : String)
  | exit (msg : String)
deriving DecidableEq, Repr

/-- The fields of `LeakyClient` that `_get_updates` mutates. -/
structure ClientState where
  secret_length : Option Nat
  secret : List Nat
  finished : Bool
  error : Bool
  error_msg : String
deriving DecidableEq, Repr

/-- `LeakyClient.__init__`'s result-accumulation state. -/
def ClientState.init : ClientState :=
  ⟨none, [], false, false, ""⟩

/-- `LeakyClient._get_updates`, draining a queue holding the given events
in order: `length` records the total, `secret` extends the buffer, `done`
and `error` set their flag and break, and any other tag — including the
`exit` events the engines emit — raises `ValueError("Unknown update ...")`.
An exhausted queue (`queue.Empty`) breaks the loop. -/
def get_updates : List QEvent → ClientState → Except PyError ClientState
  | [], s => .ok s
  | e :: rest, s =>
      match e with
      | .length n => get_updates rest { s with secret_length := some n }
      | .secret bs => get_updates rest { s with secret := s.secret ++ bs }
      | .done => .ok { s with finished := true }
      | .error msg => .ok { s with error := true, error_msg := msg }
      | .exit _ => .error .valueError

/-- `LeakyClient.get_secret`: drain updates, raise
`ConnectionError(self.error_msg)` if an error event was seen, otherwise
return `(secret so far, finished)`. -/
def client_get_secret (events : List QEvent) (s : ClientState) :
    Except PyError (List Nat × Bool) := do
  let s1 ← get_updates events s
  if s1.error then throw (.connectionError s1.error_msg)
  else return (s1.secret, s1.finished)

/-! ## Theorems -/

/-- A message encodes successfully to a frame of its fixed size whose 4-byte
length field holds that size, and decoding the frame gives back the
message. -/
def EncodesTo (msg : LeakyMessage) : Prop :=
  ∃ bs, msg.to_bytes = some bs ∧ bs.length = msg.size ∧
    unpack32 (bs.getD 0 0) (bs.getD 1 0) (bs.getD 2 0) (bs.getD 3 0) = msg.size ∧
    decodeMessage bs = .ok msg

theorem mode_roundtrip (m low high : Nat) (h0 : m < 2) (h1 : low < high)
    (h2 : high < 4294967296) : EncodesTo (.mode m low high) := by
  have hlow := unpack32_pack32 low (by omega)
  have hhigh := unpack32_pack32 high h2
  refine ⟨pack32 14 ++ [0, m] ++ pack32 low ++ pack32 high, ?_, ?_, ?_, ?_⟩
  · rw [LeakyMessage.to_bytes, if_pos]
    exact ⟨by omega, by omega, h2⟩
  · simp [pack32, LeakyMessage.size]
  · simp [pack32, unpack32, LeakyMessage.size]
  · simp only [decodeMessage, decodeFrame, LeakyModeMessage.from_bytes, pack32,
      List.cons_append, List.nil_append]
    norm_num
    rw [hlow, hhigh]
    rw [if_neg (by omega), if_neg (by omega)]

theorem exit_roundtrip : EncodesTo .exit := by
  refine ⟨pack32 5 ++ [1], rfl, by simp [pack32, LeakyMessage.size], ?_, ?_⟩
  · simp [pack32, unpack32, LeakyMessage.size]
  · simp [decodeMessage, decodeFrame, LeakyExitMessage.from_bytes, pack32]

theorem secret_roundtrip (byt bit : Nat) (h0 : byt < 65536) (h1 : bit < 8) :
    EncodesTo (.secret byt bit) := by
  have hbyt := unpack16_pack16 byt h0
  refine ⟨pack32 8 ++ [2] ++ pack16 byt ++ [bit], ?_, ?_, ?_, ?_⟩
  · rw [LeakyMessage.to_bytes, if_pos]
    exact ⟨h0, by omega⟩
  · simp [pack32, pack16, LeakyMessage.size]
  · simp [pack32, pack16, unpack32, LeakyMessage.size]
  · simp only [decodeMessage, decodeFrame, LeakySecretMessage.from_bytes, pack32, pack16,
      List.cons_append, List.nil_append]
    norm_num
    rw [hbyt, if_neg (by omega)]

theorem nop_roundtrip (data : List Nat) (h : data.length = 507) :
    EncodesTo (.nop data) := by
  have hpad : pad507 data = data := by
    simp [pad507, h, List.take_of_length_le]
  refine ⟨pack32 512 ++ [3] ++ pad507 data, rfl, ?_, ?_, ?_⟩
  · simp [pack32, pad507, h, LeakyMessage.size]
  · simp [pack32, unpack32, LeakyMessage.size]
  · rw [hpad]
    simp only [decodeMessage, decodeFrame, LeakyNopMessage.from_bytes, pack32,
      List.cons_append, List.nil_append]
    norm_num [h]

theorem secret_length_roundtrip (bit : Nat) (h : bit < 16) :
    EncodesTo (.secretLength bit) := by
  refine ⟨pack32 6 ++ [4, bit], ?_, ?_, ?_, ?_⟩
  · rw [LeakyMessage.to_bytes, if_pos]
    omega
  · simp [pack32, LeakyMessage.size]
  · simp [pack32, unpack32, LeakyMessage.size]
  · simp only [decodeMessage, decodeFrame, LeakySecretLengthMessage.from_bytes, pack32,
      List.cons_append, List.nil_append]
    norm_num
    omega

/-- **C1**: for every message variant and all field values its validation
accepts (and that fit the packed field widths), decoding the bytes produced
by encoding yields the original message, and the frame's 4-byte length
field equals the variant's fixed encoded size (Mode 14, Exit 5, Secret 8,
Nop 512, SecretLength 6). -/
theorem c1_message_roundtrip :
    (∀ m low high, m < 2 → low < high → high < 4294967296 →
        EncodesTo (.mode m low high)) ∧
    EncodesTo .exit ∧
    (∀ byt bit, byt < 65536 → bit < 8 → EncodesTo (.secret byt bit)) ∧
    (∀ data : List Nat, data.length = 507 → EncodesTo (.nop data)) ∧
    (∀ bit, bit < 16 → EncodesTo (.secretLength bit)) :=
  ⟨mode_roundtrip, exit_roundtrip, secret_roundtrip, nop_roundtrip,
   secret_length_roundtrip⟩

/-- Witness for **C1** at concrete field values. -/
theorem c1_message_roundtrip_witness :
    EncodesTo (.mode 0 10000 100000) ∧ EncodesTo .exit ∧
      EncodesTo (.secret 3 5) ∧ EncodesTo (.nop (List.replicate 507 7)) ∧
      EncodesTo (.secretLength 12) :=
  ⟨c1_message_roundtrip.1 0 10000 100000 (by decide) (by decide) (by decide),
   c1_message_roundtrip.2.1,
   c1_message_roundtrip.2.2.1 3 5 (by decide) (by decide),
   c1_message_roundtrip.2.2.2.1 (List.replicate 507 7) (List.length_replicate 507 7),
   c1_message_roundtrip.2.2.2.2 12 (by decide)⟩

theorem testBit_or_one_shiftLeft (acc i k : Nat) :
    (acc ||| 1 <<< i).testBit k = (acc.testBit k || decide (i = k)) := by
  rw [Nat.one_shiftLeft, Nat.testBit_or, Nat.testBit_two_pow]

theorem testBit_reconstruct_aux (bits : List Bool) :
    ∀ i acc k, (reconstruct_aux bits i acc).testBit k =
      (acc.testBit k || (decide (i ≤ k) && bits.getD (k - i) false)) := by
  induction bits with
  | nil =>
    intro i acc k
    simp [reconstruct_aux]
  | cons b rest ih =>
    intro i acc k
    rw [reconstruct_aux, ih]
    rcases lt_trichotomy k i with h | h | h
    · have h1 : ¬ i ≤ k := by omega
      have h2 : ¬ i + 1 ≤ k := by omega
      cases b
      · simp [h1, h2]
      · simp [h1, h2, testBit_or_one_shiftLeft]
    · subst h
      have h2 : ¬ k + 1 ≤ k := by omega
      cases b
      · simp [h2, Nat.sub_self]
      · simp [h2, Nat.sub_self, testBit_or_one_shiftLeft]
    · have h1 : i ≤ k := by omega
      have h2 : i + 1 ≤ k := by omega
      have h3 : k - i = (k - (i + 1)) + 1 := by omega
      have h5 : Nat.testBit 1 (k - i) = false := by
        rw [show (1 : Nat) = 2 ^ 0 from rfl, Nat.testBit_two_pow]
        rw [decide_eq_false_iff_not]
        omega
      rw [h3, List.getD_cons_succ]
      cases b
      · simp [h1, h2]
      · simp [h1, h2, h5]

/-- **C7**: bit reconstruction is LSB-first and order-sensitive: bit `i` of
`reconstruct_byte bits` is set iff sample `i` is `true`; in particular
`[true, false × 7]` gives 1, all-false gives 0 and all-true (8 samples)
gives 255. -/
theorem c7_reconstruct_byte_lsb_first :
    (∀ (bits : List Bool) (i : Nat),
        (reconstruct_byte bits).testBit i = bits.getD i false) ∧
    reconstruct_byte [true, false, false, false, false, false, false, false] = 1 ∧
    reconstruct_byte (List.replicate 8 false) = 0 ∧
    reconstruct_byte (List.replicate 8 true) = 255 := by
  refine ⟨?_, by decide, by decide, by decide⟩
  intro bits i
  rw [reconstruct_byte, testBit_reconstruct_aux]
  simp

theorem decide_and_one_shiftLeft_pos (x i : Nat) :
    decide (x &&& (1 <<< i) > 0) = x.testBit i := by
  rw [Nat.one_shiftLeft, Nat.and_two_pow]
  cases h : x.testBit i <;> simp [h]

theorem getD_map_range (f : Nat → Bool) (n i : Nat) :
    ((List.range n).map f).getD i false = if i < n then f i else false := by
  by_cases h : i < n
  · rw [if_pos h, List.getD_eq_getElem?_getD, List.getElem?_map,
      List.getElem?_range h]
    rfl
  · rw [if_neg h, List.getD_eq_getElem?_getD, List.getElem?_map,
      List.getElem?_eq_none (by simpa using Nat.le_of_not_lt h)]
    rfl

theorem reconstruct_testBit_range (n v : Nat) (h : v < 2 ^ n) :
    reconstruct_byte ((List.range n).map v.testBit) = v := by
  apply Nat.eq_of_testBit_eq
  intro i
  rw [reconstruct_byte, testBit_reconstruct_aux, getD_map_range]
  by_cases hi : i < n
  · simp [hi]
  · have hv : v.testBit i = false :=
      Nat.testBit_lt_two_pow
        (lt_of_lt_of_le h (Nat.pow_le_pow_right (by omega) (Nat.le_of_not_lt hi)))
    simp [hi, hv]

/-- **C10** (implicit): the server's per-bit extraction and the client's
reconstruction are inverses under the shared LSB-first convention: for a
secret byte string `s`, reconstructing from the 8 booleans
`get_secret_bit s b i` recovers byte `s[b]`, and reconstructing from the 16
booleans `(len(s) & (1 << i)) > 0` recovers `len(s)` when it fits 16
bits. -/
theorem c10_extraction_reconstruction_inverse :
    (∀ (s : List Nat) (b : Nat), b < s.length → (∀ x ∈ s, x < 256) →
        reconstruct_byte ((List.range 8).map (fun i => get_secret_bit s b i)) =
          s.getD b 0) ∧
    (∀ s : List Nat, s.length < 65536 →
        reconstruct_byte ((List.range 16).map (fun i => get_length_bit s i)) =
          s.length) := by
  constructor
  · intro s b hb hbytes
    have hmem : s.getD b 0 ∈ s := by
      rw [List.getD_eq_getElem s 0 hb]
      exact List.getElem_mem hb
    have hlt : s.getD b 0 < 256 := hbytes _ hmem
    have hmap : (List.range 8).map (fun i => get_secret_bit s b i) =
        (List.range 8).map (s.getD b 0).testBit := by
      apply List.map_congr_left
      intro i _
      rw [get_secret_bit, decide_and_one_shiftLeft_pos]
    rw [hmap]
    exact reconstruct_testBit_range 8 _ hlt
  · intro s hs
    have hmap : (List.range 16).map (fun i => get_length_bit s i) =
        (List.range 16).map s.length.testBit := by
      apply List.map_congr_left
      intro i _
      rw [get_length_bit, decide_and_one_shiftLeft_pos]
    rw [hmap]
    exact reconstruct_testBit_range 16 _ hs

/-- Witness for **C10**: the secret `b"ok"` (bytes `[111, 107]`). -/
theorem c10_extraction_reconstruction_inverse_witness :
    reconstruct_byte ((List.range 8).map (fun i => get_secret_bit [111, 107] 0 i)) =
        List.getD [111, 107] 0 0 ∧
    reconstruct_byte ((List.range 16).map (fun i => get_length_bit [111, 107] i)) =
        List.length [111, 107] :=
  ⟨c10_extraction_reconstruction_inverse.1 [111, 107] 0 (by decide) (by decide),
   c10_extraction_reconstruction_inverse.2 [111, 107] (by decide)⟩

theorem semReachable_invariant {ticks : Nat} {s : TickerSem}
    (h : SemReachable ticks s) : s.initial = ticks ∧ s.value ≤ ticks := by
  induction h with
  | init => exact ⟨rfl, Nat.le_refl _⟩
  | @release t _ ih =>
      obtain ⟨h1, h2⟩ := ih
      rw [ticker_release]
      by_cases hc : t.initial ≤ t.value
      · rw [if_pos hc]
        exact ⟨h1, h2⟩
      · rw [if_neg hc]
        exact ⟨h1, show t.value + 1 ≤ ticks by omega⟩
  | @acquire t _ ih =>
      obtain ⟨h1, h2⟩ := ih
      rw [sem_try_acquire]
      by_cases hc : t.value = 0
      · rw [if_pos hc]
        exact ⟨h1, h2⟩
      · rw [if_neg hc]
        exact ⟨h1, show t.value - 1 ≤ ticks by omega⟩
  | drain _ ih => exact ⟨ih.1, by simp [empty_ticker_semaphore]⟩

/-- **C5** as stated is false: `threading.BoundedSemaphore(self.ticks)`
creates the counter at value `ticks`, not zero (with `ticks = 100`, the
freshly created counter reads 100). -/
theorem c5_counterexample_counter_starts_full :
    ¬ (TickerSem.create 100).value = 0 := by decide

/-- **C5** (amended): the rate-controller counter is created at `ticks`
(and `_empty_ticker_semaphore` drains it to zero at the start of each
connection); in every reachable state its value never exceeds `ticks`,
no matter how many timer increments occur while undrained — increments at
the ceiling are silently ignored. -/
theorem c5_sem_value_le_ticks (ticks : Nat) (s : TickerSem)
    (h : SemReachable ticks s) :
    (TickerSem.create ticks).value = ticks ∧
    (empty_ticker_semaphore s).value = 0 ∧
    s.value ≤ ticks ∧
    (s.value = ticks → ticker_release s = s) := by
  obtain ⟨h1, h2⟩ := semReachable_invariant h
  refine ⟨rfl, rfl, h2, ?_⟩
  intro hfull
  rw [ticker_release, if_pos (by omega)]

/-- Witness for **C5** (amended): a counter that took two releases after a
drain, with `ticks = 2`. -/
theorem c5_sem_value_le_ticks_witness :
    (TickerSem.create 2).value = 2 ∧
    (empty_ticker_semaphore (ticker_release (ticker_release
        (empty_ticker_semaphore (TickerSem.create 2))))).value = 0 ∧
    (ticker_release (ticker_release
        (empty_ticker_semaphore (TickerSem.create 2)))).value ≤ 2 ∧
    ((ticker_release (ticker_release
        (empty_ticker_semaphore (TickerSem.create 2)))).value = 2 →
      ticker_release (ticker_release (ticker_release
        (empty_ticker_semaphore (TickerSem.create 2)))) =
        ticker_release (ticker_release
          (empty_ticker_semaphore (TickerSem.create 2)))) :=
  c5_sem_value_le_ticks 2 _
    (SemReachable.release (SemReachable.release
      (SemReachable.drain SemReachable.init)))

theorem get_updates_secrets (secrets : List (List Nat)) :
    ∀ s : ClientState,
      get_updates (secrets.map QEvent.secret ++ [QEvent.done]) s =
        .ok { s with secret := s.secret ++ secrets.flatten, finished := true } := by
  induction secrets with
  | nil =>
      intro s
      simp [get_updates]
  | cons bs rest ih =>
      intro s
      rw [List.map_cons, List.cons_append, get_updates, ih]
      simp [List.append_assoc]

/-- **C6**: the update loop accumulates `secret` payloads in order into the
growing secret buffer, records a `length` event's value, and terminates
normally on `done`; an `error` event makes `get_secret` raise
`ConnectionError` carrying the message.  But a terminal `exit` event —
which the extraction engines do emit — falls into the loop's
`else: raise ValueError("Unknown update ...")` branch instead of
terminating normally: evaluating the drain loop on the engines' own
`("exit", "exit request")` event raises `ValueError`. -/
theorem c6_update_loop_behaviour :
    (∀ (n : Nat) (secrets : List (List Nat)) (s : ClientState),
        get_updates (QEvent.length n :: (secrets.map QEvent.secret ++ [QEvent.done])) s =
          .ok { s with secret_length := some n,
                       secret := s.secret ++ secrets.flatten, finished := true }) ∧
    (∀ (msg : String) (s : ClientState),
        client_get_secret [QEvent.error msg] s = .error (.connectionError msg)) ∧
    get_updates [QEvent.exit "exit request"] ClientState.init = .error .valueError := by
  refine ⟨?_, ?_, rfl⟩
  · intro n secrets s
    rw [get_updates, get_updates_secrets]
  · intro msg s
    rfl

theorem get_secret_bit_eq_testBit (secret : List Nat) (byt bit : Nat) :
    get_secret_bit secret byt bit = (secret.getD byt 0).testBit bit := by
  rw [get_secret_bit, decide_and_one_shiftLeft_pos]

theorem get_length_bit_eq_testBit (secret : List Nat) (bit : Nat) :
    get_length_bit secret bit = secret.length.testBit bit := by
  rw [get_length_bit, decide_and_one_shiftLeft_pos]

/-- **C3**: in flow-modulation mode a Secret request with in-range byte
index sets the target rate to `high` when bit `bit` of the addressed
secret byte (LSB-first) is 1 and to `low` when it is 0; a SecretLength
request does the same for bit `bit` of the secret's length; a Secret
request whose byte index is at or past the secret's length raises
`ValueError`, which `handle_connection`'s dispatch turns into ending the
connection. -/
theorem c3_flow_mode_signals_bit (s : ConnState) :
    (∀ byt bit, byt < s.secret.length →
        ∃ s', handle_message_flow s (.secret byt bit) = .ok s' ∧
          s'.rate = (if (s.secret.getD byt 0).testBit bit
                     then (s.high : ℚ) else (s.low : ℚ))) ∧
    (∀ bit, ∃ s', handle_message_flow s (.secretLength bit) = .ok s' ∧
        s'.rate = (if s.secret.length.testBit bit
                   then (s.high : ℚ) else (s.low : ℚ))) ∧
    (∀ byt bit now, s.secret.length ≤ byt →
        handle_message_flow s (.secret byt bit) = .error .valueError ∧
        (s.mode = some 0 →
          dispatch_message s now (.secret byt bit) = .closed)) := by
  refine ⟨?_, ?_, ?_⟩
  · intro byt bit h
    simp only [handle_message_flow]
    rw [if_neg (by omega), get_secret_bit_eq_testBit]
    by_cases hbit : (s.secret.getD byt 0).testBit bit
    · rw [if_pos hbit]
      exact ⟨_, rfl, by rw [set_rate, if_pos hbit]⟩
    · rw [if_neg hbit]
      exact ⟨_, rfl, by rw [set_rate, if_neg hbit]⟩
  · intro bit
    simp only [handle_message_flow]
    rw [get_length_bit_eq_testBit]
    by_cases hbit : s.secret.length.testBit bit
    · rw [if_pos hbit]
      exact ⟨_, rfl, by rw [set_rate, if_pos hbit]⟩
    · rw [if_neg hbit]
      exact ⟨_, rfl, by rw [set_rate, if_neg hbit]⟩
  · intro byt bit now h
    have hflow : handle_message_flow s (.secret byt bit) = .error .valueError := by
      simp only [handle_message_flow]
      rw [if_pos (by omega)]
    refine ⟨hflow, ?_⟩
    intro hmode
    rw [dispatch_message, hmode]
    simp only [hflow]

/-- Witness for **C3**: secret `b"ok"`, flow mode, `low = 10000`,
`high = 100000`. -/
theorem c3_flow_mode_signals_bit_witness :
    (∃ s', handle_message_flow
        ⟨[111, 107], 100, some 0, 10000, 100000, 55000, 550, none, false⟩
        (.secret 0 0) = .ok s' ∧
      s'.rate = (if Nat.testBit 111 0 then (100000 : ℚ) else (10000 : ℚ))) ∧
    (handle_message_flow
        ⟨[111, 107], 100, some 0, 10000, 100000, 55000, 550, none, false⟩
        (.secret 2 0) = .error .valueError ∧
      (some 0 = some 0 →
        dispatch_message
          ⟨[111, 107], 100, some 0, 10000, 100000, 55000, 550, none, false⟩
          0 (.secret 2 0) = .closed)) :=
  ⟨(c3_flow_mode_signals_bit _).1 0 0 (by decide),
   (c3_flow_mode_signals_bit _).2.2 2 0 0 (by decide)⟩

/-- **C4** as stated is false on one point: on a tick whose socket read
times out (`except socket.timeout: continue`) the handler skips the
deadline check entirely, so it does not close even when the armed deadline
has passed. -/
theorem c4_counterexample_timeout_tick_skips_deadline :
    tick_step ⟨[111, 107], 100, some 1, 50, 400, 61440, 614, some 0, false⟩
        1 .timeout = .skipped ∧
    deadline_reached (some (0 : ℚ)) 1 = true := by
  exact ⟨rfl, rfl⟩

/-- **C4** (amended): in close-delay mode every in-range Secret or
SecretLength bit request pins the rate to `BASE_LEAKY_RATE` and arms the
absolute close deadline `now + high/1000` when the requested bit is 1 and
`now + low/1000` when it is 0; on each subsequent tick whose read returns
data, the handler closes the connection exactly when the current time has
reached the armed deadline (a tick whose read times out skips the
check). -/
theorem c4_close_delay_arms_deadline (s : ConnState) (now : ℚ) :
    (∀ byt bit, byt < s.secret.length →
        ∃ s', handle_message_delay s now (.secret byt bit) = .ok s' ∧
          s'.rate = (BASE_LEAKY_RATE : ℚ) ∧
          s'.close_time = some (now +
            (if (s.secret.getD byt 0).testBit bit
             then (s.high : ℚ) else (s.low : ℚ)) / 1000)) ∧
    (∀ bit, ∃ s', handle_message_delay s now (.secretLength bit) = .ok s' ∧
        s'.rate = (BASE_LEAKY_RATE : ℚ) ∧
        s'.close_time = some (now +
          (if s.secret.length.testBit bit
           then (s.high : ℚ) else (s.low : ℚ)) / 1000)) ∧
    (∀ (t now2 : ℚ) (bs : List Nat), s.close_time = some t →
        (t ≤ now2 → tick_step s now2 (.data bs) = .closedConn) ∧
        (now2 < t → bs ≠ [] → tick_step s now2 (.data bs) = .proceed bs)) := by
  refine ⟨?_, ?_, ?_⟩
  · intro byt bit h
    simp only [handle_message_delay]
    rw [if_neg (by omega), get_secret_bit_eq_testBit]
    by_cases hbit : (s.secret.getD byt 0).testBit bit
    · rw [if_pos hbit]
      exact ⟨_, rfl, rfl, by rw [if_pos hbit]⟩
    · rw [if_neg hbit]
      exact ⟨_, rfl, rfl, by rw [if_neg hbit]⟩
  · intro bit
    simp only [handle_message_delay]
    rw [get_length_bit_eq_testBit]
    by_cases hbit : s.secret.length.testBit bit
    · rw [if_pos hbit]
      exact ⟨_, rfl, rfl, by rw [if_pos hbit]⟩
    · rw [if_neg hbit]
      exact ⟨_, rfl, rfl, by rw [if_neg hbit]⟩
  · intro t now2 bs hct
    constructor
    · intro hle
      simp only [tick_step]
      rw [hct]
      simp only [deadline_reached]
      rw [if_pos (by simpa using hle)]
    · intro hlt hbs
      simp only [tick_step]
      rw [hct]
      simp only [deadline_reached]
      rw [if_neg (by simpa using not_le.mpr hlt),
        if_neg (by simpa [List.length_eq_zero] using hbs)]

/-- Witness for **C4** (amended): secret `b"ok"`, close-delay mode with
`low = 50`, `high = 400`, request at time 0, tick at time 1. -/
theorem c4_close_delay_arms_deadline_witness :
    (∃ s', handle_message_delay
        ⟨[111, 107], 100, some 1, 50, 400, 61440, 614, none, false⟩ 0
        (.secret 0 0) = .ok s' ∧
      s'.rate = (BASE_LEAKY_RATE : ℚ) ∧
      s'.close_time = some ((0 : ℚ) +
        (if Nat.testBit 111 0 then (400 : ℚ) else (50 : ℚ)) / 1000)) ∧
    ((1 : ℚ) ≤ 1 → tick_step
        ⟨[111, 107], 100, some 1, 50, 400, 61440, 614, some 1, false⟩
        1 (.data [0]) = .closedConn) :=
  ⟨(c4_close_delay_arms_deadline _ 0).1 0 0 (by decide),
   ((c4_close_delay_arms_deadline
      ⟨[111, 107], 100, some 1, 50, 400, 61440, 614, some 1, false⟩ 0).2.2
      1 1 [0] rfl).1⟩

/-- **C9**: decoding a Secret frame with `bit_index ≥ 8`, a SecretLength
frame with `bit_index ≥ 16`, or a Mode frame with `low ≥ high` fails with
`ValidationError`, while a byte count that does not match the variant's
fixed layout fails with the generic `ValueError` — two distinct error
kinds. -/
theorem c9_validation_errors_distinct (buf : List Nat) :
    (buf.length = 8 → buf.getD 4 0 = 2 → 8 ≤ buf.getD 7 0 →
        LeakySecretMessage.from_bytes buf = .error .validationError) ∧
    (buf.length = 6 → buf.getD 4 0 = 4 → 16 ≤ buf.getD 5 0 →
        LeakySecretLengthMessage.from_bytes buf = .error .validationError) ∧
    (buf.length = 14 → buf.getD 4 0 = 0 →
      unpack32 (buf.getD 10 0) (buf.getD 11 0) (buf.getD 12 0) (buf.getD 13 0) ≤
        unpack32 (buf.getD 6 0) (buf.getD 7 0) (buf.getD 8 0) (buf.getD 9 0) →
        LeakyModeMessage.from_bytes buf = .error .validationError) ∧
    (buf.length ≠ 8 → LeakySecretMessage.from_bytes buf = .error .valueError) ∧
    (buf.length ≠ 6 →
        LeakySecretLengthMessage.from_bytes buf = .error .valueError) ∧
    (buf.length ≠ 14 → LeakyModeMessage.from_bytes buf = .error .valueError) ∧
    PyError.validationError ≠ PyError.valueError := by
  refine ⟨?_, ?_, ?_, ?_, ?_, ?_, by decide⟩
  · intro hlen htag hbit
    rw [LeakySecretMessage.from_bytes, if_pos hlen, if_neg (by omega)]
    rw [if_pos (by omega)]
  · intro hlen htag hbit
    rw [LeakySecretLengthMessage.from_bytes, if_pos hlen, if_neg (by omega)]
    rw [if_pos (by omega)]
  · intro hlen htag hlowhigh
    rw [LeakyModeMessage.from_bytes, if_pos hlen, if_neg (by omega)]
    by_cases hm : buf.getD 5 0 ≠ 0 ∧ buf.getD 5 0 ≠ 1
    · rw [if_pos hm]
    · rw [if_neg hm, if_pos hlowhigh]
  · intro hlen
    rw [LeakySecretMessage.from_bytes, if_neg hlen]
  · intro hlen
    rw [LeakySecretLengthMessage.from_bytes, if_neg hlen]
  · intro hlen
    rw [LeakyModeMessage.from_bytes, if_neg hlen]

/-- Witness for **C9**: a Secret frame with bit index 9, a SecretLength
frame with bit index 20, a Mode frame with `low = high = 7`, and a 3-byte
truncated buffer. -/
theorem c9_validation_errors_distinct_witness :
    LeakySecretMessage.from_bytes [0, 0, 0, 8, 2, 0, 1, 9] =
        .error .validationError ∧
    LeakySecretLengthMessage.from_bytes [0, 0, 0, 6, 4, 20] =
        .error .validationError ∧
    LeakyModeMessage.from_bytes
        [0, 0, 0, 14, 0, 0, 0, 0, 0, 7, 0, 0, 0, 7] =
        .error .validationError ∧
    LeakySecretMessage.from_bytes [0, 0, 0] = .error .valueError :=
  ⟨(c9_validation_errors_distinct _).1 (by decide) (by decide) (by decide),
   (c9_validation_errors_distinct _).2.1 (by decide) (by decide) (by decide),
   (c9_validation_errors_distinct _).2.2.1 (by decide) (by decide) (by decide),
   (c9_validation_errors_distinct _).2.2.2.1 (by decide)⟩

/-- One client-visible operation on a `StreamBuffer`. -/
inductive BufOp where
  | append (data : List Nat)
  | pop (n : Nat)
deriving DecidableEq, Repr

/-- The number of bytes an `append` actually accepted: the data's length
minus the length of the returned leftover. -/
def acceptedOf (data : List Nat) (leftover : Option (List Nat)) : Nat :=
  data.length - (match leftover with
    | none => 0
    | some l => l.length)

/-- Run a sequence of operations, totalling the bytes the appends actually
accepted and the bytes the pops removed. -/
def runOps : StreamBuffer → List BufOp → Except PyError (StreamBuffer × Nat × Nat)
  | sb, [] => .ok (sb, 0, 0)
  | sb, .append data :: rest =>
      let r := sb.append data
      match runOps r.1 rest with
      | .ok (sb1, a, p) => .ok (sb1, acceptedOf data r.2 + a, p)
      | .error e => .error e
  | sb, .pop n :: rest =>
      match sb.pop n with
      | .ok (_, sb1) =>
          match runOps sb1 rest with
          | .ok (sb2, a, p) => .ok (sb2, a, n + p)
          | .error e => .error e
      | .error e => .error e

theorem append_size (sb : StreamBuffer) (data : List Nat) :
    (sb.append data).1.size = sb.size + acceptedOf data (sb.append data).2 := by
  rw [StreamBuffer.append]
  by_cases h0 : sb.max_size - sb.size = 0
  · simp [h0, acceptedOf]
  · rw [if_neg h0]
    by_cases h1 : data.length ≤ sb.max_size - sb.size
    · simp [h1, acceptedOf]
    · rw [if_neg h1]
      simp only [acceptedOf]
      have h2 : data.length - (sb.max_size - sb.size) ≤ data.length :=
        Nat.sub_le _ _
      rw [List.length_drop]
      rw [Nat.sub_sub_self (by omega)]

theorem pop_size (sb : StreamBuffer) (n : Nat) (res : List Nat × StreamBuffer)
    (h : sb.pop n = .ok res) : res.2.size = sb.size - n ∧ n ≤ sb.size := by
  rw [StreamBuffer.pop] at h
  by_cases hc : n > sb.size
  · rw [if_pos hc] at h
    exact absurd h (by simp)
  · rw [if_neg hc] at h
    simp only [Except.ok.injEq] at h
    rw [← h]
    exact ⟨rfl, by omega⟩

theorem runOps_size (ops : List BufOp) :
    ∀ (sb : StreamBuffer) (res : StreamBuffer × Nat × Nat),
      runOps sb ops = .ok res → res.1.size + res.2.2 = sb.size + res.2.1 := by
  induction ops with
  | nil =>
      intro sb res h
      rw [runOps] at h
      simp only [Except.ok.injEq] at h
      subst h
      simp
  | cons op rest ih =>
      intro sb res h
      match op with
      | .append data =>
          rw [runOps] at h
          revert h
          split
          · rename_i sb1 a p heq
            intro h
            simp only [Except.ok.injEq] at h
            subst h
            have hrec := ih _ _ heq
            have hsz := append_size sb data
            simp only at hrec hsz ⊢
            omega
          · intro h
            exact absurd h (by simp)
      | .pop n =>
          rw [runOps] at h
          revert h
          split
          · rename_i frags sb1 heq
            split
            · rename_i sb2 a p heq2
              intro h
              simp only [Except.ok.injEq] at h
              subst h
              have hrec := ih _ _ heq2
              have hsz := pop_size sb n (frags, sb1) heq
              simp only at hrec hsz ⊢
              omega
            · intro h
              exact absurd h (by simp)
          · intro h
            exact absurd h (by simp)

theorem popAux_single (x : List Nat) (hx : x ≠ []) :
    popAux [x] x.length = (x, []) := by
  match x, hx with
  | b :: bs, _ =>
      show popAux [b :: bs] (bs.length + 1) = _
      rw [popAux]
      rw [if_neg (by simp)]
      simp [popAux]

/-- **C8**: appending a byte sequence strictly shorter than the capacity to
a fresh buffer and popping its length returns it unchanged; and over any
successful sequence of appends and pops, `len()` equals the bytes the
appends accepted minus the bytes the pops removed (pops never outrun
appends). -/
theorem c8_buffer_roundtrip_and_accounting :
    (∀ (cap : Nat) (x : List Nat), x.length < cap →
        ∃ sb', ((StreamBuffer.empty cap).append x).1.pop x.length =
          .ok (x, sb')) ∧
    (∀ (cap : Nat) (ops : List BufOp) (res : StreamBuffer × Nat × Nat),
        runOps (StreamBuffer.empty cap) ops = .ok res →
        res.1.len = res.2.1 - res.2.2 ∧ res.2.2 ≤ res.2.1) := by
  constructor
  · intro cap x hx
    have happ : ((StreamBuffer.empty cap).append x).1 =
        ⟨[x], cap, x.length⟩ := by
      rw [StreamBuffer.append]
      rw [if_neg (by simp [StreamBuffer.empty]; omega)]
      rw [if_pos (by simp [StreamBuffer.empty]; omega)]
      simp [StreamBuffer.empty]
    rw [happ, StreamBuffer.pop, if_neg (by simp)]
    rcases x with _ | ⟨b, bs⟩
    · exact ⟨⟨[[]], cap, 0⟩, rfl⟩
    · refine ⟨⟨[], cap, (b :: bs).length - (b :: bs).length⟩, ?_⟩
      rw [popAux_single (b :: bs) (by simp)]
  · intro cap ops res h
    have hrec := runOps_size ops _ _ h
    simp only [StreamBuffer.empty] at hrec
    refine ⟨?_, by omega⟩
    rw [StreamBuffer.len]
    omega

/-- Witness for **C8**: append `[1,2,3]` to an empty 10-byte buffer and pop
it back; run `[append [1,2,3], pop 2]` and check the accounting. -/
theorem c8_buffer_roundtrip_and_accounting_witness :
    (∃ sb', ((StreamBuffer.empty 10).append [1, 2, 3]).1.pop 3 =
        .ok ([1, 2, 3], sb')) ∧
    (∀ res, runOps (StreamBuffer.empty 10) [.append [1, 2, 3], .pop 2] =
        .ok res → res.1.len = res.2.1 - res.2.2 ∧ res.2.2 ≤ res.2.1) :=
  ⟨c8_buffer_roundtrip_and_accounting.1 10 [1, 2, 3] (by decide),
   fun res h => c8_buffer_roundtrip_and_accounting.2 10 _ res h⟩

theorem peekAux_eq_take (chunks : List (List Nat)) :
    ∀ n, n ≤ chunks.flatten.length → peekAux chunks n = chunks.flatten.take n := by
  induction chunks with
  | nil =>
      intro n h
      simp only [List.flatten_nil, List.length_nil, Nat.le_zero] at h
      subst h
      rfl
  | cons buf rest ih =>
      intro n h
      rw [peekAux]
      by_cases hc : n ≤ buf.length
      · rw [if_pos hc, List.flatten_cons, List.take_append_of_le_length hc]
      · rw [if_neg hc, List.flatten_cons]
        have h2 : n - buf.length ≤ rest.flatten.length := by
          rw [List.flatten_cons, List.length_append] at h
          omega
        rw [ih _ h2, List.take_append_eq_append_take,
          List.take_of_length_le (show buf.length ≤ n by omega)]

theorem popAux_spec (chunks : List (List Nat)) :
    ∀ n, n ≤ chunks.flatten.length →
      (popAux chunks n).1 = chunks.flatten.take n ∧
      (popAux chunks n).2.flatten = chunks.flatten.drop n := by
  induction chunks with
  | nil =>
      intro n h
      simp only [List.flatten_nil, List.length_nil, Nat.le_zero] at h
      subst h
      exact ⟨rfl, rfl⟩
  | cons buf rest ih =>
      intro n h
      match n with
      | 0 => exact ⟨rfl, rfl⟩
      | m + 1 =>
          rw [popAux]
          by_cases hc : buf.length > m + 1
          · rw [if_pos hc]
            constructor
            · show buf.take (m + 1) = _
              rw [List.flatten_cons, List.take_append_of_le_length (by omega)]
            · show (buf.drop (m + 1) :: rest).flatten = _
              rw [List.flatten_cons, List.flatten_cons,
                List.drop_append_of_le_length (by omega)]
          · rw [if_neg hc]
            have h2 : m + 1 - buf.length ≤ rest.flatten.length := by
              rw [List.flatten_cons, List.length_append] at h
              omega
            obtain ⟨ih1, ih2⟩ := ih _ h2
            constructor
            · show buf ++ (popAux rest (m + 1 - buf.length)).1 = _
              rw [ih1, List.flatten_cons, List.take_append_eq_append_take,
                List.take_of_length_le (show buf.length ≤ m + 1 by omega)]
            · show (popAux rest (m + 1 - buf.length)).2.flatten = _
              rw [ih2, List.flatten_cons, List.drop_append_eq_append_drop,
                List.drop_of_length_le (show buf.length ≤ m + 1 by omega),
                List.nil_append]

theorem peek_eq_take (sb : StreamBuffer) (n : Nat) (hwf : sb.WF)
    (h : n ≤ sb.size) : sb.peek n = .ok (sb.chunks.flatten.take n) := by
  rw [StreamBuffer.peek, if_neg (by omega)]
  rw [StreamBuffer.WF] at hwf
  rw [peekAux_eq_take _ _ (by omega)]

theorem pop_eq_take (sb : StreamBuffer) (n : Nat) (hwf : sb.WF)
    (h : n ≤ sb.size) :
    sb.pop n = .ok (sb.chunks.flatten.take n,
      ⟨(popAux sb.chunks n).2, sb.max_size, sb.size - n⟩) := by
  rw [StreamBuffer.pop, if_neg (by omega)]
  rw [StreamBuffer.WF] at hwf
  simp only [(popAux_spec sb.chunks n (by omega)).1]

theorem getD_take_of_lt (l : List Nat) (n i : Nat) (h : i < n) :
    (l.take n).getD i 0 = l.getD i 0 := by
  rw [List.getD_eq_getElem?_getD, List.getD_eq_getElem?_getD,
    List.getElem?_take_of_lt h]

theorem headerUnpack_take (l : List Nat) (h : 5 ≤ l.length) :
    headerUnpack (l.take 5) =
      .ok (unpack32 (l.getD 0 0) (l.getD 1 0) (l.getD 2 0) (l.getD 3 0),
           l.getD 4 0) := by
  rw [headerUnpack, if_pos (by rw [List.length_take]; omega)]
  rw [getD_take_of_lt _ _ _ (by omega), getD_take_of_lt _ _ _ (by omega),
    getD_take_of_lt _ _ _ (by omega), getD_take_of_lt _ _ _ (by omega),
    getD_take_of_lt _ _ _ (by omega)]

theorem pop_decode_eq (sb : StreamBuffer) (L : Nat) (hwf : sb.WF)
    (hL : L ≤ sb.size) (f : List Nat → Except PyError LeakyMessage) :
    pop_decode sb L f = (f (sb.chunks.flatten.take L)).map
      (fun m => (some m,
        (⟨(popAux sb.chunks L).2, sb.max_size, sb.size - L⟩ : StreamBuffer))) := by
  simp only [pop_decode, pop_eq_take sb L hwf hL]
  cases f (sb.chunks.flatten.take L) <;> rfl

/-- **C2**: with fewer than 5 bytes buffered, or fewer than the declared
frame length `L`, `parse` returns "no message yet" and leaves the buffer
untouched; otherwise it removes exactly `L` bytes and decodes them with
the variant matching the type tag `t` (a tag outside {0,..,4} raises the
fatal `ValueError`). -/
theorem c2_parse_incremental (sb : StreamBuffer) (hwf : sb.WF) :
    (sb.len < 5 → parse sb = .ok (none, sb)) ∧
    (∀ L t, 5 ≤ sb.len →
      L = unpack32 (sb.chunks.flatten.getD 0 0) (sb.chunks.flatten.getD 1 0)
            (sb.chunks.flatten.getD 2 0) (sb.chunks.flatten.getD 3 0) →
      t = sb.chunks.flatten.getD 4 0 →
      (sb.len < L → parse sb = .ok (none, sb)) ∧
      (L ≤ sb.len →
        ∃ sb2, parse sb = (decodeFrame t (sb.chunks.flatten.take L)).map
            (fun msg => (some msg, sb2)) ∧
          sb2.chunks.flatten = sb.chunks.flatten.drop L ∧
          sb2.size = sb.size - L ∧
          sb2.max_size = sb.max_size) ∧
      (L ≤ sb.len → 5 ≤ t → parse sb = .error .valueError)) := by
  constructor
  · intro h
    rw [parse]
    simp only [header_size]
    rw [if_pos h]
  · intro L t h5 hL ht
    have hflat : 5 ≤ sb.chunks.flatten.length := by
      rw [StreamBuffer.WF] at hwf
      rw [StreamBuffer.len] at h5
      omega
    have hparse : parse sb =
        (if sb.len < L then .ok (none, sb)
         else if t = 0 then pop_decode sb L LeakyModeMessage.from_bytes
         else if t = 1 then pop_decode sb L LeakyExitMessage.from_bytes
         else if t = 2 then pop_decode sb L LeakySecretMessage.from_bytes
         else if t = 3 then pop_decode sb L LeakyNopMessage.from_bytes
         else if t = 4 then pop_decode sb L LeakySecretLengthMessage.from_bytes
         else .error .valueError) := by
      rw [parse]
      simp only [header_size]
      rw [if_neg (by omega)]
      simp only [peek_eq_take sb 5 hwf (by rw [StreamBuffer.len] at h5; omega),
        headerUnpack_take _ hflat]
      rw [← hL, ← ht]
    refine ⟨?_, ?_, ?_⟩
    · intro hlt
      rw [hparse, if_pos hlt]
    · intro hle
      have hle2 : L ≤ sb.size := by rw [StreamBuffer.len] at hle; omega
      refine ⟨⟨(popAux sb.chunks L).2, sb.max_size, sb.size - L⟩, ?_, ?_, rfl, rfl⟩
      · rw [hparse, if_neg (by omega), decodeFrame]
        by_cases h0 : t = 0
        · rw [if_pos h0, if_pos h0, pop_decode_eq sb L hwf hle2]
        rw [if_neg h0, if_neg h0]
        by_cases h1 : t = 1
        · rw [if_pos h1, if_pos h1, pop_decode_eq sb L hwf hle2]
        rw [if_neg h1, if_neg h1]
        by_cases h2 : t = 2
        · rw [if_pos h2, if_pos h2, pop_decode_eq sb L hwf hle2]
        rw [if_neg h2, if_neg h2]
        by_cases h3 : t = 3
        · rw [if_pos h3, if_pos h3, pop_decode_eq sb L hwf hle2]
        rw [if_neg h3, if_neg h3]
        by_cases h4 : t = 4
        · rw [if_pos h4, if_pos h4, pop_decode_eq sb L hwf hle2]
        rw [if_neg h4, if_neg h4]
        rfl
      · rw [StreamBuffer.WF] at hwf
        exact (popAux_spec sb.chunks L (by omega)).2
    · intro hle htag
      rw [hparse, if_neg (by omega)]
      rw [if_neg (by omega), if_neg (by omega), if_neg (by omega),
        if_neg (by omega), if_neg (by omega)]

/-- Witness for **C2**: a well-formed buffer holding an Exit frame split
across two chunks, parsed at header length 5, tag 1. -/
theorem c2_parse_incremental_witness :
    ((⟨[[0, 0]], 8192, 2⟩ : StreamBuffer).len < 5 →
      parse ⟨[[0, 0]], 8192, 2⟩ = .ok (none, ⟨[[0, 0]], 8192, 2⟩)) ∧
    (5 ≤ (⟨[[0, 0, 0], [5, 1, 9]], 8192, 6⟩ : StreamBuffer).len →
      ∃ sb2, parse ⟨[[0, 0, 0], [5, 1, 9]], 8192, 6⟩ =
          (decodeFrame 1 (([[0, 0, 0], [5, 1, 9]] : List (List Nat)).flatten.take 5)).map
            (fun msg => (some msg, sb2)) ∧
        sb2.chunks.flatten =
          ([[0, 0, 0], [5, 1, 9]] : List (List Nat)).flatten.drop 5 ∧
        sb2.size = 6 - 5 ∧
        sb2.max_size = 8192) :=
  ⟨(c2_parse_incremental ⟨[[0, 0]], 8192, 2⟩ (by decide)).1,
   fun h5 => ((c2_parse_incremental ⟨[[0, 0, 0], [5, 1, 9]], 8192, 6⟩
      (by decide)).2 5 1 h5 (by decide) (by decide)).2.1 (by decide)⟩
